import Mathlib

/-!
Verification of the core of joi-to-typescript (src/parse.ts): the compiler
from Joi schema-description trees to TypeScript declaration text.

The embedding follows the source file src/parse.ts.  The repository files
types.ts and utils.ts (the `TypeContent` constructors, the `Settings` record
and `filterMap`) are not part of the provided sources; those few auxiliary
definitions are modelled from the specification (section 3 of the design
document) and from their uses in parse.ts, and are marked as such below.

JavaScript semantics that matter here and are modelled explicitly:
  - `undefined`/absent fields are `Option.none`;
  - string falsiness (`!s` is true for the empty string) is `strFalsy`;
  - template interpolation of `undefined` produces the text "undefined"
    (`jsStr`);
  - `details.items ? details.items[0] : defaultItem` takes the branch with
    `items[0]` even when `items` is the empty array (an empty array is
    truthy), so the element is `undefined` and dereferencing its fields
    throws a TypeError; thrown exceptions are modelled with `Except`.
-/

namespace JoiToTs

/-- Presence flag of a description node (`flags.presence`). -/
inductive Presence where
  | optional
  | required
deriving DecidableEq, Repr

/-- Flags carried by a description node (`BaseDescribe.flags` in parse.ts). -/
structure Flags where
  label : Option String
  description : Option String
  presence : Option Presence
  unknown : Option Bool
deriving DecidableEq, Repr

/-- Modelled from the spec: the `Settings` record of types.ts.  Only the two
fields read by parse.ts are kept (`defaultToRequired`,
`sortPropertiesByName`); `commentEverything` is passed to the renderer as a
separate argument, exactly as in parse.ts. -/
structure Settings where
  defaultToRequired : Bool
  sortPropertiesByName : Bool
deriving DecidableEq, Repr

/-- A JavaScript value appearing in an `allow` list: a string, `null`, a
number (modelled as an integer, which covers the literals the tool handles)
or a boolean. -/
inductive JsValue where
  | vstr (s : String)
  | vnull
  | vnum (n : Int)
  | vbool (b : Bool)
deriving DecidableEq, Repr

/-- JavaScript template interpolation of a `JsValue` (the text produced by
a template literal containing the value). -/
def jsTemplate : JsValue → String
  | .vstr s => s
  | .vnull => "null"
  | .vnum n => toString n
  | .vbool true => "true"
  | .vbool false => "false"

/-- The four basic Joi types handled by `parseBasicSchema`. -/
inductive BasicType where
  | any
  | boolean
  | date
  | number
deriving DecidableEq, Repr

/-- The description tree produced by Joi's `describe()` call (the `Describe`
union of parse.ts).  `alternatives` stores the list of `matchList[i].schema`;
`obj` stores the key/value pairs of `keys` in insertion order;
`unsupported` covers any other `type` tag (binary, symbol, link, ...),
carrying the raw tag string. -/
inductive Describe where
  | basic (btype : BasicType) (flags : Option Flags) (allow : Option (List JsValue))
  | str (flags : Option Flags) (allow : Option (List JsValue))
  | arr (flags : Option Flags) (items : Option (List Describe))
  | obj (flags : Option Flags) (keys : Option (List (String × Describe)))
  | alternatives (flags : Option Flags) (matchList : List Describe)
  | unsupported (tname : String) (flags : Option Flags)

/-- The `type` string of a description node. -/
def Describe.tname : Describe → String
  | .basic .any _ _ => "any"
  | .basic .boolean _ _ => "boolean"
  | .basic .date _ _ => "date"
  | .basic .number _ _ => "number"
  | .str _ _ => "string"
  | .arr _ _ => "array"
  | .obj _ _ => "object"
  | .alternatives _ _ => "alternatives"
  | .unsupported t _ => t

/-- The `flags` of a description node. -/
def Describe.flagsOf : Describe → Option Flags
  | .basic _ f _ => f
  | .str f _ => f
  | .arr f _ => f
  | .obj f _ => f
  | .alternatives f _ => f
  | .unsupported _ f => f

/-- The list of supported Joi types (`supportedJoiTypes` in parse.ts). -/
def supportedJoiTypes : List String :=
  ["array", "object", "alternatives", "any", "boolean", "date", "number", "string"]

/-- JavaScript falsiness of an optional string: `undefined` and the empty
string are falsy. -/
def strFalsy : Option String → Bool
  | none => true
  | some s => s.isEmpty

/-- JavaScript template interpolation of a possibly-`undefined` string. -/
def jsStr : Option String → String
  | none => "undefined"
  | some s => s

/-- The common fields extracted by `getCommonDetails` in parse.ts.  The
function only reads `details.flags`, so it is parametrised by the flags. -/
structure CommonDetails where
  label : Option String
  description : Option String
  required : Bool
deriving DecidableEq, Repr

/-- getCommonDetails of parse.ts: label and description from the flags,
required from `flags.presence` with `settings.defaultToRequired` as the
fallback. -/
def getCommonDetails (flags : Option Flags) (settings : Settings) : CommonDetails :=
  let label := flags.bind (·.label)
  let description := flags.bind (·.description)
  let required :=
    match flags.bind (·.presence) with
    | some .optional => false
    | some .required => true
    | none => settings.defaultToRequired
  ⟨label, description, required⟩

/-- The join operation of a composite TypeContent node.  In types.ts this is
the string union of object, list and union; the renderer's `default` branch
(an "Unsupported join operation" error) is unreachable for this closed
type. -/
inductive JoinOp where
  | obj
  | list
  | union
deriving DecidableEq, Repr

/-- Modelled from the spec: the `TypeContent` intermediate representation of
types.ts, a discriminated union (`__isRoot`) of a leaf (already-rendered
inline text plus metadata) and a composite root (join operation plus ordered
children plus metadata).  `required` is only ever used through JavaScript
truthiness, so a missing `required` is identified with `false`; a missing
`customTypes` is identified with `[]`. -/
inductive TypeContent where
  | leaf (content : String) (name : Option String) (description : Option String)
      (required : Bool) (customTypes : List String)
  | root (joinOperation : JoinOp) (children : List TypeContent) (name : Option String)
      (description : Option String) (required : Bool)

/-- The `name` field of a TypeContent node. -/
def TypeContent.name : TypeContent → Option String
  | .leaf _ n _ _ _ => n
  | .root _ _ n _ _ => n

/-- The `required` field of a TypeContent node. -/
def TypeContent.required : TypeContent → Bool
  | .leaf _ _ _ r _ => r
  | .root _ _ _ _ r => r

/-- The three assignments performed by `parseSchema` after a shape parser
returns (`parsedSchema.name = label; parsedSchema.description = description;
parsedSchema.required = required`). -/
def TypeContent.withCommon (tc : TypeContent) (name description : Option String)
    (required : Bool) : TypeContent :=
  match tc with
  | .leaf c _ _ _ ct => .leaf c name description required ct
  | .root j ch _ _ _ => .root j ch name description required

/-- The name assignment performed by `parseObjects` on each property
(`parsedSchema.name = ...`). -/
def TypeContent.withName (tc : TypeContent) (name : Option String) : TypeContent :=
  match tc with
  | .leaf c _ d r ct => .leaf c name d r ct
  | .root j ch _ d r => .root j ch name d r

/-- Exceptions thrown by the modelled code: a JavaScript TypeError from
dereferencing `undefined`, the "needs a name to be exported" error, and the
"Multiple array item types not supported" error. -/
inductive JsError where
  | typeError
  | needsName
  | multipleArrayItems
deriving DecidableEq, Repr

/-- A single quote character, used for quoting literal values and
non-identifier property keys. -/
def sq : String := String.singleton (Char.ofNat 39)

/-- The literal leaf built for one `allow` value by `parseBasicSchema`:
string values are single-quoted, other values are interpolated bare. -/
def allowLeaf (v : JsValue) : TypeContent :=
  match v with
  | .vstr s => .leaf (sq ++ s ++ sq) none none false []
  | _ => .leaf (jsTemplate v) none none false []

/-- The mapped TypeScript text of a basic Joi type (`date` maps to `Date`,
the others pass through by name). -/
def basicContent : BasicType → String
  | .any => "any"
  | .boolean => "boolean"
  | .date => "Date"
  | .number => "number"

/-- parseBasicSchema of parse.ts: a bare leaf of the mapped type name, or,
when a non-empty `allow` list is present, a union of literal leaves with the
bare type prepended exactly when the first allowed value is `null`. -/
def parseBasicSchema (btype : BasicType) (flags : Option Flags)
    (allow : Option (List JsValue)) (settings : Settings) : Option TypeContent :=
  let cd := getCommonDetails flags settings
  let content := basicContent btype
  match allow with
  | some values =>
    match values with
    | [] => some (.leaf content cd.label cd.description false [])
    | v0 :: _ =>
      let allowedValues := values.map allowLeaf
      let allowedValues :=
        if v0 = .vnull then .leaf content none none false [] :: allowedValues
        else allowedValues
      some (.root .union allowedValues cd.label cd.description false)
  | none => some (.leaf content cd.label cd.description false [])

/-- Membership in `stringAllowValues = [null, '']` of parse.ts. -/
def isTrivialStringAllow (v : JsValue) : Bool :=
  v = .vnull || v = .vstr ""

/-- parseStringSchema of parse.ts: plain `string` when there is no allow
list or the allow list is exactly the singleton empty string; otherwise a
union of the literal leaves (null rendered bare, everything else quoted),
with the plain `string` leaf prepended when every allowed value is one of
the trivial markers null and empty string. -/
def parseStringSchema (flags : Option Flags) (allow : Option (List JsValue))
    (settings : Settings) : Option TypeContent :=
  let cd := getCommonDetails flags settings
  match allow with
  | some values =>
    if values.isEmpty then some (.leaf "string" cd.label cd.description false [])
    else if values = [.vstr ""] then
      -- special case of empty string sometimes used in Joi to allow just empty string
      some (.leaf "string" cd.label cd.description false [])
    else
      let allowedValues := values.map fun v =>
        if isTrivialStringAllow v && !(v = .vstr "") then
          TypeContent.leaf (jsTemplate v) none none false []
        else
          TypeContent.leaf (sq ++ jsTemplate v ++ sq) none none false []
      let allowedValues :=
        if values.all isTrivialStringAllow then
          TypeContent.leaf "string" none none false [] :: allowedValues
        else allowedValues
      some (.root .union allowedValues cd.label cd.description false)
  | none => some (.leaf "string" cd.label cd.description false [])

/-- The regular expression test of parseObjects
(`/^[$A-Z_][0-9A-Z_$]*$/i`): first character. -/
def isIdentStart (c : Char) : Bool :=
  c = '$' || c = '_' || c.isAlpha

/-- The regular expression test of parseObjects: subsequent characters. -/
def isIdentRest (c : Char) : Bool :=
  c.isAlphanum || c = '_' || c = '$'

/-- Whether a property key is accepted by `/^[$A-Z_][0-9A-Z_$]*$/i` (and may be
used verbatim as a property name). -/
def isValidIdentifier (s : String) : Bool :=
  match s.data with
  | [] => false
  | c :: cs => isIdentStart c && cs.all isIdentRest

/-- The synthetic catch-all property appended by parseObjects when
`flags.unknown` is true.  In parse.ts it is an object literal without an
`__isRoot` field, which every consumer treats as a leaf. -/
def unknownProperty : TypeContent :=
  .leaf "any" (some "[x: string]") (some "Unknown Property") true []

mutual

/-- Size measure on description nodes used to justify termination of the
mutually recursive parser (every node has size at least 1; an `arr` node
is strictly larger than the synthesized `any` item node). -/
def dsize : Describe → Nat
  | .basic _ _ _ => 1
  | .str _ _ => 1
  | .unsupported _ _ => 1
  | .arr _ none => 2
  | .arr _ (some items) => 2 + dsizeList items
  | .alternatives _ matchList => 1 + dsizeList matchList
  | .obj _ none => 1
  | .obj _ (some keys) => 1 + dsizeKeys keys

/-- Size of a list of description nodes. -/
def dsizeList : List Describe → Nat
  | [] => 0
  | d :: rest => 1 + dsize d + dsizeList rest

/-- Size of an object's key/value list. -/
def dsizeKeys : List (String × Describe) → Nat
  | [] => 0
  | (_, d) :: rest => 1 + dsize d + dsizeKeys rest
end

theorem dsize_pos (d : Describe) : 0 < dsize d := by
  cases d with
  | arr f items => cases items <;> simp [dsize]
  | obj f keys => cases keys <;> simp [dsize]
  | _ => simp [dsize]

/-- Three-way comparison of character lists by code point, modelling the
JavaScript string relational operators used by the property comparator of
parseObjects. -/
def charListCmp : List Char → List Char → Ordering
  | [], [] => .eq
  | [], _ :: _ => .lt
  | _ :: _, [] => .gt
  | a :: as, b :: bs =>
    if a.toNat < b.toNat then .lt
    else if b.toNat < a.toNat then .gt
    else charListCmp as bs

/-- Three-way comparison of strings (the comparator body of parseObjects:
return 1 when a.name > b.name, -1 when a.name < b.name, 0 otherwise). -/
def strCmp (a b : String) : Ordering := charListCmp a.data b.data

/-- The sort key used by the comparator: `a.name`.  parseObjects assigns a
name to every child before sorting, so the default is never consulted. -/
def nameKey (tc : TypeContent) : String := tc.name.getD ""

/-- Property order induced by the comparator: `propLe a b` holds when the
comparator does not place `a` strictly after `b`. -/
def propLe (a b : TypeContent) : Prop := strCmp (nameKey a) (nameKey b) ≠ Ordering.gt

instance : DecidableRel propLe := fun a b => by unfold propLe; infer_instance

/-- JavaScript `Array.prototype.sort` with the three-way name comparator of
parseObjects: a stable comparison sort, modelled as insertion sort. -/
def sortByName (l : List TypeContent) : List TypeContent :=
  List.insertionSort propLe l

mutual

/-- parseSchema of parse.ts.  Label short-circuit (a truthy label, with
label-following enabled and the label not ignored, becomes a bare reference
leaf), then the supported-type filter (unsupported types log and contribute
nothing), then dispatch to the shape parser and attachment of the common
fields.  Exceptions thrown by the JavaScript code are `Except.error`. -/
def parseSchema (details : Describe) (settings : Settings) (useLabels : Bool)
    (ignoreLabels : List String) : Except JsError (Option TypeContent) :=
  let cd := getCommonDetails details.flagsOf settings
  if !strFalsy cd.label && useLabels && !(ignoreLabels.contains (jsStr cd.label)) then
    -- skip parsing and just reference the label
    .ok (some (.leaf (jsStr cd.label) none cd.description cd.required [jsStr cd.label]))
  else if !(supportedJoiTypes.contains details.tname) then
    -- console.log of the unsupported type, then no output for this node
    .ok none
  else
    match (match details with
      | .arr flags items => parseArray flags items settings
      | .str flags allow => .ok (parseStringSchema flags allow settings)
      | .alternatives flags matchList => parseAlternatives flags matchList settings
      | .obj flags keys => parseObjects flags keys settings
      | .basic btype flags allow => .ok (parseBasicSchema btype flags allow settings)
      | .unsupported _ _ => .ok none) with
    | .error e => .error e
    | .ok none => .ok none
    | .ok (some parsedSchema) =>
      .ok (some (parsedSchema.withCommon cd.label cd.description cd.required))
termination_by (dsize details, 1)
decreasing_by
  all_goals exact Prod.Lex.right _ (by omega)

/-- parseArray of parse.ts: `const item = details.items ? details.items[0] :
{type any}`.  An absent `items` synthesizes an `any` item; an empty `items`
array is truthy in JavaScript, so `items[0]` is `undefined` and parsing it
throws a TypeError; otherwise only the first item is used. -/
def parseArray (flags : Option Flags) (items : Option (List Describe))
    (settings : Settings) : Except JsError (Option TypeContent) :=
  let cd := getCommonDetails flags settings
  match items with
  | some [] => .error .typeError
  | some (item :: _) =>
    match parseSchema item settings true [] with
    | .error e => .error e
    | .ok none => .ok none
    | .ok (some child) => .ok (some (.root .list [child] cd.label cd.description false))
  | none =>
    match parseSchema (.basic .any none none) settings true [] with
    | .error e => .error e
    | .ok none => .ok none
    | .ok (some child) => .ok (some (.root .list [child] cd.label cd.description false))
termination_by (dsize (Describe.arr flags items), 0)
decreasing_by
  all_goals apply Prod.Lex.left
  all_goals simp only [dsize, dsizeList]
  all_goals omega

/-- parseAlternatives of parse.ts: parse every match's schema with the
current label (when truthy) in the ignore list, keep the survivors, and
return `none` when no child survives, a union composite otherwise. -/
def parseAlternatives (flags : Option Flags) (matchList : List Describe)
    (settings : Settings) : Except JsError (Option TypeContent) :=
  let cd := getCommonDetails flags settings
  let ignoreLabels := if strFalsy cd.label then [] else [jsStr cd.label]
  match parseAltList matchList settings ignoreLabels with
  | .error e => .error e
  | .ok [] => .ok none
  | .ok children => .ok (some (.root .union children cd.label cd.description false))
termination_by (dsize (Describe.alternatives flags matchList), 0)
decreasing_by
  all_goals apply Prod.Lex.left
  all_goals simp only [dsize, dsizeList]
  all_goals omega

/-- Modelled from the spec: `filterMap` of utils.ts applied to the matches
of an alternatives node — parse each schema in order, drop the parses that
produced nothing, and propagate a thrown exception from any element. -/
def parseAltList (matchList : List Describe) (settings : Settings)
    (ignoreLabels : List String) : Except JsError (List TypeContent) :=
  match matchList with
  | [] => .ok []
  | m :: rest =>
    match parseSchema m settings true ignoreLabels with
    | .error e => .error e
    | .ok o =>
      match parseAltList rest settings ignoreLabels with
      | .error e => .error e
      | .ok rs => .ok (match o with | none => rs | some tc => tc :: rs)
termination_by (dsizeList matchList, 2)
decreasing_by
  all_goals apply Prod.Lex.left
  all_goals simp only [dsizeList]
  all_goals omega

/-- parseObjects of parse.ts: parse every key's value, name each surviving
property (the key verbatim when it is a valid identifier, a single-quoted
literal otherwise), append the catch-all property when `flags.unknown` is
true, sort by name when `settings.sortPropertiesByName` is true, and wrap
as an object composite. -/
def parseObjects (flags : Option Flags) (keys : Option (List (String × Describe)))
    (settings : Settings) : Except JsError (Option TypeContent) :=
  match parseKeysList (keys.getD []) settings with
  | .error e => .error e
  | .ok children0 =>
    let children1 :=
      if flags.bind (·.unknown) = some true then children0 ++ [unknownProperty]
      else children0
    let children2 :=
      if settings.sortPropertiesByName then sortByName children1 else children1
    let cd := getCommonDetails flags settings
    .ok (some (.root .obj children2 cd.label cd.description false))
termination_by (dsize (Describe.obj flags keys), 0)
decreasing_by
  all_goals apply Prod.Lex.left
  all_goals cases keys
  all_goals simp only [Option.getD_none, Option.getD_some, dsize, dsizeKeys]
  all_goals omega

/-- Modelled from the spec: `filterMap` of utils.ts applied to
`Object.entries(details.keys || \x7b\x7d)` — parse each value in order,
drop the parses that produced nothing, assign the property name to each
survivor, and propagate a thrown exception from any element. -/
def parseKeysList (keys : List (String × Describe)) (settings : Settings) :
    Except JsError (List TypeContent) :=
  match keys with
  | [] => .ok []
  | (key, value) :: rest =>
    match parseSchema value settings true [] with
    | .error e => .error e
    | .ok o =>
      match parseKeysList rest settings with
      | .error e => .error e
      | .ok rs => .ok (match o with
        | none => rs
        | some ps =>
          ps.withName (some (if isValidIdentifier key then key else sq ++ key ++ sq)) :: rs)
termination_by (dsizeKeys keys, 2)
decreasing_by
  all_goals apply Prod.Lex.left
  all_goals simp only [dsizeKeys]
  all_goals omega

end

/-- JavaScript `Array.prototype.join(sep)`. -/
def joinSep (sep : String) : List String → String
  | [] => ""
  | [x] => x
  | x :: y :: rest => x ++ sep ++ joinSep sep (y :: rest)

/-- getIndentStr of parse.ts: two spaces per indent level. -/
def getIndentStr (indentLevel : Nat) : String :=
  String.join (List.replicate indentLevel "  ")

/-- getDescriptionStr of parse.ts: the jsDoc block for an interface or
property.  Nothing is emitted when `commentEverything` is off and the
description is falsy; otherwise the body is the description when truthy and
the (already interpolated) name otherwise. -/
def getDescriptionStr (commentEverything : Bool) (name : String)
    (description : Option String) (indentLevel : Nat) : String :=
  if !commentEverything && strFalsy description then ""
  else
    let docStr := if strFalsy description then name else jsStr description
    let lines := ["/**", " * " ++ docStr, " */"]
    joinSep "\n" (lines.map fun line => getIndentStr indentLevel ++ line) ++ "\n"

/-- JavaScript `content.includes(c)` for a single-character needle: the
character occurs in the string. -/
def strIncludesChar (s : String) (c : Char) : Bool :=
  s.data.contains c

/-- The pair returned by typeContentToTsHelper. -/
structure RenderResult where
  tsContent : String
  description : Option String
deriving DecidableEq, Repr

mutual

/-- typeContentToTsHelper of parse.ts.  A leaf renders to its inline content
(before any name check); a composite with export requested must have a
truthy name; `list` renders its single child (parenthesized when its text
contains a union operator) with the array suffix, `union` joins the
children's texts, `obj` renders the properties as an indented brace block
(or the bare `object` placeholder when empty and not exported). -/
def typeContentToTsHelper (commentEverything : Bool) (parsedSchema : TypeContent)
    (doExport : Bool) (indentLevel : Nat) : Except JsError RenderResult :=
  match parsedSchema with
  | .leaf content _ description _ _ => .ok ⟨content, description⟩
  | .root joinOperation children name description _ =>
    if doExport && strFalsy name then .error .needsName
    else
      match joinOperation with
      | .list =>
        match renderAll commentEverything children with
        | .error e => .error e
        | .ok childrenContent =>
          if childrenContent.length > 1 then .error .multipleArrayItems
          else
            match childrenContent with
            | [] => .error .typeError
            | c0 :: _ =>
              let content :=
                if strIncludesChar c0.tsContent '|' then "(" ++ c0.tsContent ++ ")"
                else c0.tsContent
              let arrayStr := content ++ "[]"
              if doExport then
                .ok ⟨"export type " ++ jsStr name ++ " = " ++ arrayStr ++ ";", description⟩
              else .ok ⟨arrayStr, description⟩
      | .union =>
        match renderAll commentEverything children with
        | .error e => .error e
        | .ok childrenContent =>
          let unionStr := joinSep " | " (childrenContent.map (·.tsContent))
          if doExport then
            .ok ⟨"export type " ++ jsStr name ++ " = " ++ unionStr ++ ";", description⟩
          else .ok ⟨unionStr, description⟩
      | .obj =>
        if children.isEmpty && !doExport then .ok ⟨"object", description⟩
        else
          match renderLines commentEverything indentLevel children with
          | .error e => .error e
          | .ok lines =>
            let objectStr :=
              if children.isEmpty then "\x7b\x7d"
              else "\x7b\n" ++ joinSep "\n" lines ++ "\n" ++ getIndentStr indentLevel ++ "\x7d"
            if doExport then
              .ok ⟨"export interface " ++ jsStr name ++ " " ++ objectStr, description⟩
            else .ok ⟨objectStr, description⟩

/-- The `children.map` of the `list` and `union` branches: render every
child without export at indent level 0. -/
def renderAll (commentEverything : Bool) (children : List TypeContent) :
    Except JsError (List RenderResult) :=
  match children with
  | [] => .ok []
  | c :: rest =>
    match typeContentToTsHelper commentEverything c false 0 with
    | .error e => .error e
    | .ok r =>
      match renderAll commentEverything rest with
      | .error e => .error e
      | .ok rs => .ok (r :: rs)

/-- The `children.map` of the `obj` branch: render every property to its
full line (jsDoc block, indentation, name, optional marker, type text and
semicolon). -/
def renderLines (commentEverything : Bool) (indentLevel : Nat)
    (children : List TypeContent) : Except JsError (List String) :=
  match children with
  | [] => .ok []
  | child :: rest =>
    match typeContentToTsHelper commentEverything child false (indentLevel + 1) with
    | .error e => .error e
    | .ok childInfo =>
      let descriptionStr :=
        getDescriptionStr commentEverything (jsStr child.name) childInfo.description
          (indentLevel + 1)
      let optionalStr := if child.required then "" else "?"
      let line := descriptionStr ++ "  " ++ getIndentStr indentLevel ++ jsStr child.name ++
        optionalStr ++ ": " ++ childInfo.tsContent ++ ";"
      match renderLines commentEverything indentLevel rest with
      | .error e => .error e
      | .ok rest2 => .ok (line :: rest2)

end

/-- typeContentToTs of parse.ts: the top-level renderer, prefixing the jsDoc
block derived from the node's own description and name. -/
def typeContentToTs (commentEverything : Bool) (parsedSchema : TypeContent)
    (doExport : Bool) : Except JsError String :=
  match typeContentToTsHelper commentEverything parsedSchema doExport 0 with
  | .error e => .error e
  | .ok r =>
    .ok (getDescriptionStr commentEverything (jsStr parsedSchema.name) r.description 0 ++
      r.tsContent)

/-! Infrastructure lemmas. -/

/-- The text `needle` occurs contiguously inside `hay`. -/
def StrContains (needle hay : String) : Prop :=
  ∃ s t : List Char, s ++ needle.data ++ t = hay.data

theorem data_append (a b : String) : (a ++ b).data = a.data ++ b.data := rfl

theorem strContains_self_context (pre needle post : String) :
    StrContains needle (pre ++ needle ++ post) :=
  ⟨pre.data, post.data, rfl⟩

theorem StrContains.mono_left {needle hay : String} (x : String)
    (h : StrContains needle hay) : StrContains needle (x ++ hay) := by
  obtain ⟨s, t, hst⟩ := h
  exact ⟨x.data ++ s, t, by rw [data_append, ← hst]; simp [List.append_assoc]⟩

theorem StrContains.mono_right {needle hay : String} (x : String)
    (h : StrContains needle hay) : StrContains needle (hay ++ x) := by
  obtain ⟨s, t, hst⟩ := h
  exact ⟨s, t ++ x.data, by rw [data_append, ← hst]; simp [List.append_assoc]⟩

theorem strContains_joinSep {needle x : String} (sep : String) :
    ∀ l : List String, x ∈ l → StrContains needle x → StrContains needle (joinSep sep l)
  | [], hx, _ => by cases hx
  | [y], hx, h => by
    rcases List.mem_singleton.mp hx with rfl
    simpa [joinSep] using h
  | y :: z :: rest, hx, h => by
    rcases List.mem_cons.mp hx with rfl | hx2
    · exact ((h.mono_right sep).mono_right (joinSep sep (z :: rest)))
    · exact ((strContains_joinSep sep (z :: rest) hx2 h).mono_left (y ++ sep))

theorem charListCmp_swap (a : List Char) :
    ∀ b : List Char, charListCmp b a = (charListCmp a b).swap := by
  induction a with
  | nil => intro b; cases b <;> simp [charListCmp, Ordering.swap]
  | cons x xs ih =>
    intro b
    cases b with
    | nil => simp [charListCmp, Ordering.swap]
    | cons y ys =>
      simp only [charListCmp]
      split_ifs <;> simp [Ordering.swap, ih ys] <;> omega

theorem charListCmp_le_trans (a : List Char) :
    ∀ b c : List Char, charListCmp a b ≠ .gt → charListCmp b c ≠ .gt →
      charListCmp a c ≠ .gt := by
  induction a with
  | nil => intro b c _ _; cases c <;> simp [charListCmp]
  | cons x xs ih =>
    intro b c h1 h2
    cases b with
    | nil => simp [charListCmp] at h1
    | cons y ys =>
      cases c with
      | nil => simp [charListCmp] at h2
      | cons z zs =>
        simp only [charListCmp] at h1 h2 ⊢
        split_ifs at h1 h2 ⊢ <;>
          first
          | exact ih ys zs h1 h2
          | decide
          | omega
          | simp_all

instance : IsTotal TypeContent propLe :=
  ⟨fun a b => by
    unfold propLe strCmp
    rcases hc : charListCmp (nameKey a).data (nameKey b).data with _ | _ | _
    · left; simp [hc]
    · left; simp [hc]
    · right; rw [charListCmp_swap]; simp [hc, Ordering.swap]⟩

instance : IsTrans TypeContent propLe :=
  ⟨fun _ _ _ h1 h2 => charListCmp_le_trans _ _ _ h1 h2⟩

theorem sortByName_sorted (l : List TypeContent) : List.Sorted propLe (sortByName l) :=
  List.sorted_insertionSort propLe l

theorem mem_sortByName {a : TypeContent} {l : List TypeContent} :
    a ∈ sortByName l ↔ a ∈ l :=
  List.mem_insertionSort propLe

theorem strContains_of_eq_append (pre needle tail hay : String)
    (hh : hay.data = pre.data ++ needle.data ++ tail.data) : StrContains needle hay :=
  ⟨pre.data, tail.data, hh.symm⟩

theorem catchall_line_contains (D I : String) :
    StrContains "[x: string]: any;"
      (D ++ "  " ++ I ++ "[x: string]" ++ "" ++ ": " ++ "any" ++ ";") :=
  strContains_of_eq_append (D ++ "  " ++ I) "[x: string]: any;" ""
    (D ++ "  " ++ I ++ "[x: string]" ++ "" ++ ": " ++ "any" ++ ";")
    (by simp [data_append, List.append_assoc])

/-- In a successful renderLines run over children containing the catch-all
property, some produced line contains the index-signature text. -/
theorem renderLines_unknown_contains (ce : Bool) (il : Nat) :
    ∀ (ch : List TypeContent) (lines : List String),
      renderLines ce il ch = .ok lines → unknownProperty ∈ ch →
      ∃ line ∈ lines, StrContains "[x: string]: any;" line := by
  intro ch
  induction ch with
  | nil => intro lines _ hm; cases hm
  | cons c rest ih =>
    intro lines hr hm
    simp only [renderLines] at hr
    cases h1 : typeContentToTsHelper ce c false (il + 1) with
    | error e => rw [h1] at hr; cases hr
    | ok childInfo =>
      rw [h1] at hr
      cases h2 : renderLines ce il rest with
      | error e => rw [h2] at hr; cases hr
      | ok rest2 =>
        rw [h2] at hr
        injection hr with hr'
        rcases List.mem_cons.mp hm with rfl | hmr
        · have h1e : typeContentToTsHelper ce unknownProperty false (il + 1) =
              .ok ⟨"any", some "Unknown Property"⟩ := rfl
          rw [h1e] at h1
          injection h1 with h1'
          refine ⟨_, hr' ▸ List.mem_cons_self _ _, ?_⟩
          rw [← h1']
          simp only [unknownProperty, TypeContent.name, TypeContent.required, jsStr,
            if_true]
          exact catchall_line_contains _ _
        · obtain ⟨line, hl, hc⟩ := ih rest2 h2 hmr
          exact ⟨line, hr' ▸ List.mem_cons_of_mem _ hl, hc⟩

/-- A successful render of an object composite containing the catch-all
property contains the index-signature text, exported or not. -/
theorem helper_obj_catchall (ce ex : Bool) (il : Nat) (ch : List TypeContent)
    (nm ds : Option String) (rq : Bool) (res : RenderResult)
    (hm : unknownProperty ∈ ch)
    (h : typeContentToTsHelper ce (.root .obj ch nm ds rq) ex il = .ok res) :
    StrContains "[x: string]: any;" res.tsContent := by
  have hemp : ch.isEmpty = false := by
    cases ch with
    | nil => cases hm
    | cons a l => rfl
  have hx2 : ((ex && strFalsy nm) = false) ∨ ((ex && strFalsy nm) = true) := by
    cases ex && strFalsy nm <;> simp
  rcases hx2 with hx | hx
  case inr =>
    simp only [typeContentToTsHelper, hx, if_true] at h
    cases h
  simp only [typeContentToTsHelper, hx, Bool.false_eq_true, if_false, hemp,
    Bool.false_and] at h
  cases hr : renderLines ce il ch with
  | error e => rw [hr] at h; cases h
  | ok lines =>
    rw [hr] at h
    obtain ⟨line, hl, hc⟩ := renderLines_unknown_contains ce il ch lines hr hm
    have hj : StrContains "[x: string]: any;" (joinSep "\n" lines) :=
      strContains_joinSep "\n" lines hl hc
    have hobj : StrContains "[x: string]: any;"
        ("\x7b\n" ++ joinSep "\n" lines ++ "\n" ++ getIndentStr il ++ "\x7d") :=
      (((hj.mono_left "\x7b\n").mono_right "\n").mono_right (getIndentStr il)).mono_right
        "\x7d"
    cases ex with
    | true =>
      simp only [if_true] at h
      injection h with h'
      rw [← h']
      exact hobj.mono_left ("export interface " ++ jsStr nm ++ " ")
    | false =>
      simp only [Bool.false_eq_true, if_false] at h
      injection h with h'
      rw [← h']
      exact hobj

/-! Claim theorems. -/

/-- C1 (counterexample): a leaf node with an absent name, rendered with
export requested, does not raise an error — it returns its inline content,
because the leaf early-return precedes the name check.  This refutes the
claim that the unnamed-export error fires for every node shape, leaf and
composite alike. -/
theorem c1_counterexample :
    typeContentToTsHelper false (.leaf "string" none none false []) true 0 =
      .ok ⟨"string", none⟩ := rfl

/-- C1 (amended): for every composite (root) TypeContent node whose name is
absent or empty, rendering it with export requested raises the
needs-a-name error, whatever the join operation and children; leaf nodes
are returned as inline content without any name check. -/
theorem c1_root_export_unnamed_fatal (ce : Bool) (op : JoinOp)
    (children : List TypeContent) (nm ds : Option String) (rq : Bool) (il : Nat)
    (h : strFalsy nm = true) :
    typeContentToTsHelper ce (.root op children nm ds rq) true il =
      .error .needsName := by
  simp [typeContentToTsHelper, h]

/-- C1 (witness): the amended theorem applied to an unnamed empty object
composite. -/
theorem c1_witness :
    strFalsy none = true ∧
    typeContentToTsHelper false (.root .obj [] none none false) true 0 =
      .error .needsName :=
  ⟨rfl, c1_root_export_unnamed_fatal false .obj [] none none false 0 rfl⟩

/-- C2 (counterexample): an array description node whose `items` field is
present but the empty array makes parseSchema throw a TypeError (the empty
array is truthy, so the code dereferences `items[0]`, which is
`undefined`), rather than produce a `list` composite with a synthesized
`any` item. -/
theorem c2_counterexample :
    parseSchema (.arr none (some [])) ⟨true, true⟩ true [] = .error .typeError := by
  simp [parseSchema, parseArray, getCommonDetails, Describe.flagsOf, Describe.tname,
    strFalsy, jsStr, supportedJoiTypes]

/-- C2 (amended): it is for an array description node whose `items` field
is absent that parseArray synthesizes an `any`-typed item: the result is a
`list` composite whose single child is the parse of an `any` node; an
`items` field holding the empty array instead throws a TypeError. -/
theorem c2_array_absent_items_synthesizes_any (flags : Option Flags) (s : Settings) :
    parseArray flags none s =
      .ok (some (.root .list [.leaf "any" none none s.defaultToRequired []]
        (getCommonDetails flags s).label (getCommonDetails flags s).description false)) := by
  simp [parseArray, parseSchema, parseBasicSchema, basicContent, getCommonDetails,
    Describe.flagsOf, Describe.tname, strFalsy, jsStr, supportedJoiTypes,
    TypeContent.withCommon]

/-- C9 (confirmed): rendering is deterministic — two invocations of
typeContentToTs on the same TypeContent tree with the same settings yield
the same declaration text (the renderer is a pure function of its
arguments). -/
theorem c9_render_deterministic (ce : Bool) (tc : TypeContent) (ex : Bool)
    (r1 r2 : Except JsError String)
    (h1 : typeContentToTs ce tc ex = r1) (h2 : typeContentToTs ce tc ex = r2) :
    r1 = r2 :=
  h1.symm.trans h2

/-- C9 (witness): the determinism theorem applied to a concrete leaf. -/
theorem c9_witness :
    typeContentToTs false (.leaf "string" none none false []) false = .ok "string" ∧
    (Except.ok "string" : Except JsError String) = .ok "string" :=
  ⟨rfl, c9_render_deterministic false (.leaf "string" none none false []) false
    (.ok "string") (.ok "string") rfl rfl⟩

/-- C10 (confirmed): an `object` composite with zero children renders, with
export requested and a truthy name, as `export interface <name> \x7b\x7d`
(an empty brace body); the bare `object` placeholder replaces only the
non-exported zero-property case. -/
theorem c10_empty_object_render (ce : Bool) (nm : String) (ds : Option String)
    (rq : Bool) (il : Nat) (h : nm.isEmpty = false) :
    typeContentToTsHelper ce (.root .obj [] (some nm) ds rq) true il =
      .ok ⟨"export interface " ++ nm ++ " " ++ "\x7b\x7d", ds⟩ ∧
    typeContentToTsHelper ce (.root .obj [] (some nm) ds rq) false il =
      .ok ⟨"object", ds⟩ := by
  constructor
  · simp [typeContentToTsHelper, renderLines, strFalsy, jsStr, h]
  · simp [typeContentToTsHelper, strFalsy, jsStr]

/-- C10 (witness): the empty-object rendering theorem applied to the name
Foo. -/
theorem c10_witness :
    ("Foo" : String).isEmpty = false ∧
    (typeContentToTsHelper false (.root .obj [] (some "Foo") none false) true 0 =
      .ok ⟨"export interface " ++ "Foo" ++ " " ++ "\x7b\x7d", none⟩ ∧
    typeContentToTsHelper false (.root .obj [] (some "Foo") none false) false 0 =
      .ok ⟨"object", none⟩) :=
  ⟨rfl, c10_empty_object_render false "Foo" none false 0 rfl⟩

/-- The description node of the union-in-array test: an array whose single
item is an alternatives node matching a string schema and a number
schema. -/
def c3Describe : Describe :=
  .arr none (some [.alternatives none [.str none none, .basic .number none none]])

/-- The TypeContent tree produced by parsing `c3Describe` with
defaultToRequired set: a `list` composite over a `union` composite of the
string and number leaves. -/
def c3TypeContent : TypeContent :=
  .root .list
    [.root .union [.leaf "string" none none true [], .leaf "number" none none true []]
      none none true]
    none none true

/-- C3 (confirmed): when the single child of a `list` composite renders to
a text containing the union operator, the renderer parenthesizes that text
before appending the array suffix; in particular parsing and then rendering
array(items=[alternatives(matches=[string, number])]) yields exactly
`(string | number)[]`. -/
theorem c3_list_parenthesizes_unions :
    (∀ (ce : Bool) (c : TypeContent) (nm ds : Option String) (rq : Bool) (il : Nat)
      (s : String) (d0 : Option String),
      typeContentToTsHelper ce c false 0 = .ok ⟨s, d0⟩ →
      strIncludesChar s '|' = true →
      typeContentToTsHelper ce (.root .list [c] nm ds rq) false il =
        .ok ⟨"(" ++ s ++ ")" ++ "[]", ds⟩) ∧
    parseSchema c3Describe ⟨true, true⟩ true [] = .ok (some c3TypeContent) ∧
    typeContentToTs false c3TypeContent false = .ok "(string | number)[]" := by
  refine ⟨?_, ?_, ?_⟩
  · intro ce c nm ds rq il s d0 h1 h2
    simp [typeContentToTsHelper, renderAll, h1, h2]
  · simp [c3Describe, c3TypeContent, parseSchema, parseArray, parseAlternatives,
      parseAltList, parseStringSchema, parseBasicSchema, basicContent, getCommonDetails,
      Describe.flagsOf, Describe.tname, strFalsy, jsStr, supportedJoiTypes,
      TypeContent.withCommon]
  · simp [c3TypeContent, typeContentToTs, typeContentToTsHelper, renderAll, joinSep,
      getDescriptionStr, strFalsy, jsStr, TypeContent.name, getIndentStr, strIncludesChar]

/-- C3 (witness): the parenthesization branch of the theorem applied to the
rendered union child `string | number`. -/
theorem c3_witness :
    typeContentToTsHelper false
        (.root .union [.leaf "string" none none true [], .leaf "number" none none true []]
          none none true) false 0 =
      .ok ⟨"string | number", none⟩ ∧
    strIncludesChar "string | number" '|' = true ∧
    typeContentToTsHelper false c3TypeContent false 0 =
      .ok ⟨"(" ++ "string | number" ++ ")" ++ "[]", none⟩ :=
  ⟨by simp [typeContentToTsHelper, renderAll, joinSep, jsStr, strFalsy],
   by decide,
   c3_list_parenthesizes_unions.1 false
     (.root .union [.leaf "string" none none true [], .leaf "number" none none true []]
       none none true) none none true 0 "string | number" none
     (by simp [typeContentToTsHelper, renderAll, joinSep, jsStr, strFalsy]) (by decide)⟩

/-- C4 (confirmed): for a string description node whose `allow` list is
exactly the singleton empty string, the allow list is ignored entirely —
parseStringSchema returns the same plain `string` leaf as with no allow
list at all — and parsing then rendering such a node yields exactly
`string`. -/
theorem c4_string_allow_only_empty :
    (∀ (flags : Option Flags) (s : Settings),
      parseStringSchema flags (some [.vstr ""]) s = parseStringSchema flags none s) ∧
    parseSchema (.str none (some [.vstr ""])) ⟨true, true⟩ true [] =
      .ok (some (.leaf "string" none none true [])) ∧
    typeContentToTs false (.leaf "string" none none true []) false = .ok "string" := by
  refine ⟨?_, ?_, ?_⟩
  · intro flags s
    simp [parseStringSchema]
  · simp [parseSchema, parseStringSchema, getCommonDetails, Describe.flagsOf,
      Describe.tname, strFalsy, jsStr, supportedJoiTypes, TypeContent.withCommon]
  · rfl

/-- C5 (confirmed): for a basic description node with a non-empty `allow`
list, parseBasicSchema returns a `union` composite whose children are the
plain base-type leaf if and only if the first allowed value is null,
followed by one leaf per allowed value in order — string values as
single-quoted literals (`allowLeaf`), non-string values (null included) as
bare interpolated tokens. -/
theorem c5_basic_allow_union (btype : BasicType) (flags : Option Flags)
    (v0 : JsValue) (vs : List JsValue) (s : Settings) :
    parseBasicSchema btype flags (some (v0 :: vs)) s =
      some (.root .union
        ((if v0 = .vnull then [TypeContent.leaf (basicContent btype) none none false []]
          else []) ++ (v0 :: vs).map allowLeaf)
        (getCommonDetails flags s).label (getCommonDetails flags s).description false) := by
  simp only [parseBasicSchema]
  split
  · simp_all
  · simp_all

/-- C6 (confirmed): for every object description node with
`flags.unknown = true`, the parsed `object` composite contains the
synthetic property named `[x: string]` with content `any`, marked
required, described as Unknown Property, whatever the other keys produce;
and every successful rendering of that composite contains the
index-signature text `[x: string]: any;`. -/
theorem c6_object_unknown_catchall (fl : Flags) (keys : Option (List (String × Describe)))
    (s : Settings) (base : List TypeContent)
    (hu : fl.unknown = some true)
    (hk : parseKeysList (keys.getD []) s = .ok base) :
    ∃ ch : List TypeContent,
      parseObjects (some fl) keys s =
        .ok (some (.root .obj ch fl.label fl.description false)) ∧
      unknownProperty ∈ ch ∧
      ∀ (ce ex : Bool) (res : String),
        typeContentToTs ce (.root .obj ch fl.label fl.description false) ex = .ok res →
        StrContains "[x: string]: any;" res := by
  have hmem : unknownProperty ∈
      (if s.sortPropertiesByName then sortByName (base ++ [unknownProperty])
       else base ++ [unknownProperty]) := by
    cases hsv : s.sortPropertiesByName <;> simp [mem_sortByName]
  refine ⟨_, ?_, hmem, ?_⟩
  · simp [parseObjects, hk, hu, getCommonDetails, Option.bind]
  · intro ce ex res h
    simp only [typeContentToTs] at h
    cases hh : typeContentToTsHelper ce
        (.root .obj
          (if s.sortPropertiesByName then sortByName (base ++ [unknownProperty])
           else base ++ [unknownProperty]) fl.label fl.description false) ex 0 with
    | error e => rw [hh] at h; cases h
    | ok r =>
      rw [hh] at h
      injection h with h'
      rw [← h']
      exact (helper_obj_catchall ce ex 0 _ fl.label fl.description false r hmem hh).mono_left
        _

/-- C6 (witness): the catch-all theorem applied to an object with unknown
flag set and no keys. -/
theorem c6_witness :
    (Flags.mk none none none (some true)).unknown = some true ∧
    parseKeysList ((none : Option (List (String × Describe))).getD []) ⟨true, false⟩ =
      .ok [] ∧
    (∃ ch : List TypeContent,
      parseObjects (some (Flags.mk none none none (some true))) none ⟨true, false⟩ =
        .ok (some (.root .obj ch none none false)) ∧
      unknownProperty ∈ ch ∧
      ∀ (ce ex : Bool) (res : String),
        typeContentToTs ce (.root .obj ch none none false) ex = .ok res →
        StrContains "[x: string]: any;" res) :=
  ⟨rfl, by simp [parseKeysList],
   c6_object_unknown_catchall (Flags.mk none none none (some true)) none ⟨true, false⟩ []
     rfl (by simp [parseKeysList])⟩

/-- C7 (confirmed): when `settings.sortPropertiesByName` is true, the
children of the `object` composite produced by parseObjects are in
nondecreasing order of their assigned names: every adjacent pair satisfies
`propLe`, the not-greater relation of the three-way string comparison. -/
theorem c7_sorted_properties (flags : Option Flags)
    (keys : Option (List (String × Describe))) (s : Settings)
    (ch : List TypeContent) (nm ds : Option String) (rq : Bool)
    (hs : s.sortPropertiesByName = true)
    (hp : parseObjects flags keys s = .ok (some (.root .obj ch nm ds rq))) :
    ch.Chain' propLe := by
  simp only [parseObjects] at hp
  cases hk : parseKeysList (keys.getD []) s with
  | error e => rw [hk] at hp; cases hp
  | ok base =>
    rw [hk] at hp
    simp only [hs, if_true] at hp
    injection hp with hp'
    injection hp' with hp2
    injection hp2 with _ hch
    exact hch ▸ (sortByName_sorted _).chain'

/-- C7 (witness): the sortedness theorem applied to an object whose keys
arrive in reverse alphabetical order. -/
theorem c7_witness :
    (⟨true, true⟩ : Settings).sortPropertiesByName = true ∧
    parseObjects none (some [("b", .basic .number none none), ("a", .str none none)])
        ⟨true, true⟩ =
      .ok (some (.root .obj
        [.leaf "string" (some "a") none true [], .leaf "number" (some "b") none true []]
        none none false)) ∧
    List.Chain' propLe
      [.leaf "string" (some "a") none true [], .leaf "number" (some "b") none true []] :=
  ⟨rfl,
   by
     simp [parseObjects, parseKeysList, parseSchema, parseStringSchema, parseBasicSchema,
       basicContent, getCommonDetails, Describe.flagsOf, Describe.tname, strFalsy, jsStr,
       supportedJoiTypes, TypeContent.withCommon, TypeContent.withName, isValidIdentifier,
       isIdentStart, isIdentRest, sortByName, List.insertionSort, List.orderedInsert]
     decide,
   c7_sorted_properties none (some [("b", .basic .number none none), ("a", .str none none)])
     ⟨true, true⟩
     [.leaf "string" (some "a") none true [], .leaf "number" (some "b") none true []]
     none none false rfl
     (by
       simp [parseObjects, parseKeysList, parseSchema, parseStringSchema, parseBasicSchema,
         basicContent, getCommonDetails, Describe.flagsOf, Describe.tname, strFalsy, jsStr,
         supportedJoiTypes, TypeContent.withCommon, TypeContent.withName, isValidIdentifier,
         isIdentStart, isIdentRest, sortByName, List.insertionSort, List.orderedInsert]
       decide)⟩

/-- Successful elementwise parses determine parseAltList: the output is the
filter-map of the per-element results. -/
theorem parseAltList_forall2 (s : Settings) (ig : List String) (ml : List Describe)
    (rs : List (Option TypeContent))
    (h : List.Forall₂ (fun m r => parseSchema m s true ig = .ok r) ml rs) :
    parseAltList ml s ig = .ok (rs.filterMap id) := by
  induction h with
  | nil => simp [parseAltList]
  | cons h1 _ ih =>
    rename_i m r ml2 rs2 _
    cases r with
    | none => simp [parseAltList, h1, ih]
    | some tc => simp [parseAltList, h1, ih]

/-- C8 (confirmed): parseAlternatives parses each match's schema with the
node's own label (when truthy) in the ignore-label list, keeps the parses
that produced a result, and returns the union composite of the survivors —
or an absent result, not an error, when no child survives. -/
theorem c8_alternatives_union (flags : Option Flags) (matchList : List Describe)
    (s : Settings) (results : List (Option TypeContent))
    (h : List.Forall₂
      (fun m r => parseSchema m s true
        (if strFalsy (getCommonDetails flags s).label then []
         else [jsStr (getCommonDetails flags s).label]) = .ok r) matchList results) :
    parseAlternatives flags matchList s =
      (match results.filterMap id with
       | [] => Except.ok none
       | c :: cs =>
         Except.ok (some (.root .union (c :: cs)
           (getCommonDetails flags s).label (getCommonDetails flags s).description
           false))) := by
  have halt := parseAltList_forall2 s _ matchList results h
  cases hr : results.filterMap id with
  | nil =>
    rw [hr] at halt
    simp [parseAlternatives, halt]
  | cons c cs =>
    rw [hr] at halt
    simp [parseAlternatives, halt]

/-- C8 (witness): the alternatives theorem applied to one unsupported match
(parsing to nothing) and one string match (surviving). -/
theorem c8_witness :
    List.Forall₂
      (fun m r => parseSchema m ⟨true, true⟩ true
        (if strFalsy (getCommonDetails none ⟨true, true⟩).label then []
         else [jsStr (getCommonDetails none ⟨true, true⟩).label]) = .ok r)
      [.unsupported "binary" none, .str none none]
      [none, some (.leaf "string" none none true [])] ∧
    parseAlternatives none [.unsupported "binary" none, .str none none] ⟨true, true⟩ =
      .ok (some (.root .union [.leaf "string" none none true []] none none false)) := by
  have hf : List.Forall₂
      (fun m r => parseSchema m ⟨true, true⟩ true
        (if strFalsy (getCommonDetails none ⟨true, true⟩).label then []
         else [jsStr (getCommonDetails none ⟨true, true⟩).label]) = .ok r)
      [.unsupported "binary" none, .str none none]
      [none, some (.leaf "string" none none true [])] := by
    refine List.Forall₂.cons ?_ (List.Forall₂.cons ?_ List.Forall₂.nil)
    · simp [parseSchema, getCommonDetails, Describe.flagsOf, Describe.tname, strFalsy,
        jsStr, supportedJoiTypes]
    · simp [parseSchema, parseStringSchema, getCommonDetails, Describe.flagsOf,
        Describe.tname, strFalsy, jsStr, supportedJoiTypes, TypeContent.withCommon]
  refine ⟨hf, ?_⟩
  have := c8_alternatives_union none [.unsupported "binary" none, .str none none]
    ⟨true, true⟩ [none, some (.leaf "string" none none true [])] hf
  simpa using this

end JoiToTs
